import Mathlib

/-!
Shallow embedding of `src/main.py` (a command-line contact manager):
validated fields (`Phone`, `Birthday`), `Record`, `AddressBook`,
the command handlers, the `input_error` adapter and the
upcoming-birthdays computation, together with proofs of the spec claims.

Python `datetime.date` values are modelled by `PyDate` (proleptic
Gregorian calendar, year 1..9999); exceptions by `PyErr` and `Except`.
-/

/-- A Python `datetime.date` / the date part of a `datetime`. -/
structure PyDate where
  year : Nat
  month : Nat
  day : Nat
deriving DecidableEq

/-- Gregorian leap-year rule, as used by Python's `datetime`. -/
def isLeap (y : Nat) : Bool :=
  y % 4 = 0 && (y % 100 != 0 || y % 400 = 0)

/-- Length of month `m` in year `y` (Python `calendar`/`datetime` rule). -/
def daysInMonth (y m : Nat) : Nat :=
  if m = 2 then (if isLeap y then 29 else 28)
  else if m = 4 || m = 6 || m = 9 || m = 11 then 30
  else 31

/-- Days in year `y` that precede month `m` (0 for `m ≤ 1`). -/
def daysBeforeMonth (y : Nat) : Nat → Nat
  | 0 => 0
  | 1 => 0
  | m + 1 => daysBeforeMonth y m + daysInMonth y m

/-- Days before January 1 of year `y` in the proleptic Gregorian calendar
(Python `date.toordinal` counts from `0001-01-01 = 1`). -/
def daysBeforeYear (y : Nat) : Nat :=
  365 * (y - 1) + (y - 1) / 4 - (y - 1) / 100 + (y - 1) / 400

/-- Python `date.toordinal`. -/
def toOrdinal (d : PyDate) : Nat :=
  daysBeforeYear d.year + daysBeforeMonth d.year d.month + d.day

/-- The ordinal as an integer, for day differences `(a - b).days`. -/
def ordInt (d : PyDate) : Int := (toOrdinal d : Int)

/-- Python `date` comparison `a < b` (lexicographic on (year, month, day)). -/
def dlt (a b : PyDate) : Bool :=
  a.year < b.year ||
    (a.year = b.year &&
      (a.month < b.month || (a.month = b.month && a.day < b.day)))

/-- Python `date.weekday()`: Monday = 0, …, Sunday = 6
(`0001-01-01` is a Monday). -/
def weekday (d : PyDate) : Nat := (toOrdinal d - 1) % 7

/-- Exceptions raised by the program: `ValueError`/`IndexError` (rendered
by `str` as the bare message) and `KeyError` (rendered by `str` as the
`repr` of the message). -/
inductive PyErr where
  | valueError (msg : String)
  | keyError (msg : String)
deriving DecidableEq

/-- Python `repr` of a message string, restricted to the messages this
program raises (no backslashes, never both quote kinds): single-quoted,
or double-quoted when the string itself contains a single quote. -/
def pyRepr (s : String) : String :=
  let q : Char := Char.ofNat 39
  if s.data.contains q then ⟨'"' :: s.data ++ ['"']⟩
  else ⟨q :: s.data ++ [q]⟩

/-- Python `str(error)` for the exceptions caught by `input_error`. -/
def strOfPyErr : PyErr → String
  | .valueError m => m
  | .keyError m => pyRepr m

/-- The `datetime.date(y, m, d)` constructor: the validity checks of
CPython's date object, in source order, with the errors it raises. -/
def mkDateE (y m d : Nat) : Except PyErr PyDate :=
  if y < 1 ∨ 9999 < y then
    .error (.valueError ("year " ++ toString y ++ " is out of range"))
  else if m < 1 ∨ 12 < m then
    .error (.valueError "month must be in 1..12")
  else if d < 1 ∨ daysInMonth y m < d then
    .error (.valueError "day is out of range for month")
  else .ok ⟨y, m, d⟩

/-- A structurally valid Python date: exactly the dates `mkDateE` accepts. -/
def validDate (d : PyDate) : Bool :=
  1 ≤ d.year && d.year ≤ 9999 && 1 ≤ d.month && d.month ≤ 12 &&
    1 ≤ d.day && d.day ≤ daysInMonth d.year d.month

/-- Model of `d.replace(year := y)`: revalidates through the date constructor
(this is where `29.02` raises for a non-leap target year). -/
def replaceYearE (d : PyDate) (y : Nat) : Except PyErr PyDate :=
  mkDateE y d.month d.day

/-- Successor date (`+ timedelta(days=1)` on valid dates, with month and
year rollover). The Python 9999 upper bound is not modelled here; the
theorems that use it carry a hypothesis keeping dates below the bound. -/
def nextDay (d : PyDate) : PyDate :=
  if d.day < daysInMonth d.year d.month then ⟨d.year, d.month, d.day + 1⟩
  else if d.month < 12 then ⟨d.year, d.month + 1, 1⟩
  else ⟨d.year + 1, 1, 1⟩

/-- Model of `d + timedelta(days := k)` for `k ≥ 0`. -/
def addDays (d : PyDate) : Nat → PyDate
  | 0 => d
  | k + 1 => nextDay (addDays d k)

/-- ASCII decimal digit test (the `\d` of the program's regexes on its
digit-string inputs). -/
def isDig (c : Char) : Bool := 48 ≤ c.toNat && c.toNat ≤ 57

/-- Numeric value of a digit character. -/
def digitVal (c : Char) : Nat := c.toNat - 48

/-- Character of a digit value (`digitVal` inverse for values below 10). -/
def digitChar (v : Nat) : Char := Char.ofNat (48 + v)

/-- Numeric value of a digit string (used for strptime's captured
groups `int(found_dict[...])`). -/
def readNat (cs : List Char) : Nat :=
  cs.foldl (fun a c => a * 10 + digitVal c) 0

/-- Split a character list at its first `'.'`: the prefix before it and
the remainder after it, or `none` when no dot occurs. Mirrors how the
strptime regex `…\.…\.…` anchors on the literal dots of the format. -/
def takeToDot : List Char → Option (List Char × List Char)
  | [] => none
  | c :: l =>
    if c = '.' then some ([], l)
    else (takeToDot l).map (fun p => (c :: p.1, p.2))

/-- strptime's `%d` component, `3[01]|[12]\d|0[1-9]|[1-9]`: one or two
digit characters whose value lies in 1..31. -/
def dayPart (cs : List Char) : Bool :=
  cs.all isDig && (cs.length = 1 || cs.length = 2) &&
    1 ≤ readNat cs && readNat cs ≤ 31

/-- strptime's `%m` component, `1[0-2]|0[1-9]|[1-9]`: one or two digit
characters whose value lies in 1..12. -/
def monthPart (cs : List Char) : Bool :=
  cs.all isDig && (cs.length = 1 || cs.length = 2) &&
    1 ≤ readNat cs && readNat cs ≤ 12

/-- strptime's `%Y` component: exactly four digit characters. -/
def yearPart (cs : List Char) : Bool :=
  cs.all isDig && cs.length = 4

/-- The message the `Birthday` setter wraps every parse failure in. -/
def invalidDateMsg : String := "Invalid date format. Use DD.MM.YYYY"

/-- Model of `datetime.strptime(s, "%d.%m.%Y")` followed by the `Birthday` setter's
error wrapping: component shapes per the strptime regex, then the
`datetime` constructor's calendar validation; every failure becomes
`ValueError(invalidDateMsg)`. -/
def parseBirthday (s : String) : Except PyErr PyDate :=
  match takeToDot s.data with
  | none => .error (.valueError invalidDateMsg)
  | some (p1, r1) =>
    match takeToDot r1 with
    | none => .error (.valueError invalidDateMsg)
    | some (p2, p3) =>
      if dayPart p1 && monthPart p2 && yearPart p3 then
        match mkDateE (readNat p3) (readNat p2) (readNat p1) with
        | .ok d => .ok d
        | .error _ => .error (.valueError invalidDateMsg)
      else .error (.valueError invalidDateMsg)

/-- Two-digit zero-padded rendering (`%d`, `%m`). -/
def pad2 (n : Nat) : List Char := [digitChar (n / 10 % 10), digitChar (n % 10)]

/-- Four-digit zero-padded rendering (`%Y` as documented by Python). -/
def pad4 (n : Nat) : List Char :=
  [digitChar (n / 1000 % 10), digitChar (n / 100 % 10),
   digitChar (n / 10 % 10), digitChar (n % 10)]

/-- Model of `strftime("%d.%m.%Y")`. -/
def renderDate (d : PyDate) : String :=
  ⟨pad2 d.day ++ '.' :: pad2 d.month ++ '.' :: pad4 d.year⟩

/-- The message the `Phone` setter raises. -/
def invalidPhoneMsg : String := "Phone number must contain exactly 10 digits."

/-- Model of `PHONE_REGEX.fullmatch`, where `PHONE_REGEX = re.compile(r"\d{10}")`:
exactly ten digit characters. -/
def validPhone (s : String) : Bool :=
  s.data.all isDig && s.length = 10

/-- The `Phone` field setter: validate, then store the raw string as is. -/
def mkPhone (s : String) : Except PyErr String :=
  if validPhone s then .ok s else .error (.valueError invalidPhoneMsg)

/-- A contact: `Record` of `main.py` (name, ordered phones, optional
birthday). Phones are stored as their validated raw strings, the
birthday as the date part of the stored `datetime`. -/
structure Record where
  name : String
  phones : List String
  birthday : Option PyDate
deriving DecidableEq

/-- Model of `Record(name)`: the `Name` setter rejects an empty string, then the
record starts with no phones and no birthday. -/
def mkRecord (name : String) : Except PyErr Record :=
  if name = "" then .error (.valueError "Name cannot be empty.")
  else .ok ⟨name, [], none⟩

/-- Model of `Record.add_phone`: validate and append (duplicates permitted). -/
def Record.add_phone (r : Record) (phone : String) : Except PyErr Record :=
  (mkPhone phone).map (fun p => { r with phones := r.phones ++ [p] })

/-- First index of a phone value in the sequence (`find_phone` followed
by `list.index` of the found object — object identity makes this the
first index whose value matches). -/
def idxOf? (phone : String) : List String → Option Nat
  | [] => none
  | p :: ps =>
    if p = phone then some 0 else (idxOf? phone ps).map (· + 1)

/-- Model of `Record.find_phone`: first phone equal to the query, or absent. -/
def Record.find_phone (r : Record) (phone : String) : Option String :=
  r.phones.find? (fun p => p = phone)

/-- Model of `Record.remove_phone`: drop the first occurrence, or raise. -/
def Record.remove_phone (r : Record) (phone : String) : Except PyErr Record :=
  match r.find_phone phone with
  | none => .error (.valueError "Phone number not found.")
  | some p => .ok { r with phones := r.phones.erase p }

/-- Model of `Record.edit_phone`: locate the first occurrence of the old number
(raising if absent), then validate the new number (raising if invalid)
and overwrite that position. -/
def Record.edit_phone (r : Record) (oldp newp : String) : Except PyErr Record :=
  match idxOf? oldp r.phones with
  | none => .error (.valueError "Phone number to edit not found.")
  | some i => (mkPhone newp).map (fun p => { r with phones := r.phones.set i p })

/-- Model of `Record.add_birthday`: parse and overwrite any existing birthday. -/
def Record.add_birthday (r : Record) (s : String) : Except PyErr Record :=
  (parseBirthday s).map (fun d => { r with birthday := some d })

/-- Candidate next occurrence of birthday `b` seen from `today`:
`b.replace(year := today.year)`, advanced one year when strictly before
`today`; each `replace` revalidates and may raise (Feb 29). Shared by
`Record.days_to_birthday` and the `birthdays` handler loop. -/
def candidateE (today b : PyDate) : Except PyErr PyDate :=
  (replaceYearE b today.year).bind (fun c0 =>
    if dlt c0 today then replaceYearE b (today.year + 1) else .ok c0)

/-- Model of `Record.days_to_birthday` with the clock read `datetime.today()`
passed explicitly: `None` without a birthday, otherwise
`(candidate - today).days`. -/
def Record.days_to_birthday (r : Record) (today : PyDate) :
    Except PyErr (Option Int) :=
  match r.birthday with
  | none => .ok none
  | some b => (candidateE today b).map (fun c => some (ordInt c - ordInt today))

/-- The body of the `birthdays` handler loop for one stored birthday:
the congratulation date when the contact is in the 7-day window
(weekend candidates shifted by `7 - weekday`), `none` otherwise. -/
def upcomingOf (today b : PyDate) : Except PyErr (Option PyDate) :=
  (candidateE today b).map (fun c =>
    let delta := ordInt c - ordInt today
    if 0 ≤ delta ∧ delta < 7 then
      some (if 5 ≤ weekday c then addDays c (7 - weekday c) else c)
    else none)

/-- Model of `AddressBook.data`, an insertion-ordered mapping from name to record,
as the list of its records (keys are the `name` fields, kept unique by
`add_record`). -/
abbrev Book := List Record

/-- Model of `AddressBook.find`. -/
def bookFind (book : Book) (name : String) : Option Record :=
  match book with
  | [] => none
  | r :: rs => if r.name = name then some r else bookFind rs name

/-- Model of `AddressBook.add_record`: `self.data[record.name.value] = record` —
replace the slot of an existing key in place, else append. -/
def addRecord (book : Book) (r : Record) : Book :=
  match book with
  | [] => [r]
  | x :: xs => if x.name = r.name then r :: xs else x :: addRecord xs r

/-- Model of `AddressBook.delete`: remove the key or raise `KeyError`. -/
def bookDelete (book : Book) (name : String) : Except PyErr Book :=
  match bookFind book name with
  | none =>
    .error (.keyError ("Record with name " ++ String.singleton (Char.ofNat 39)
      ++ name ++ String.singleton (Char.ofNat 39) ++ " not found."))
  | some _ => .ok (book.filter (fun r => r.name != name))

/-- The `input_error` decorator: `str(error)` for a caught
`ValueError`/`IndexError`/`KeyError`, the handler's string otherwise.
The book component carries the mutations made before the raise. -/
def inputError (res : Book × Except PyErr String) : Book × String :=
  (res.1, match res.2 with | .ok s => s | .error e => strOfPyErr e)

/-- The `add` handler `add_contact`: arity check, find-or-create the record (inserting a
fresh one into the book *before* the phone is validated), then append
the phone when the argument is non-empty. -/
def add_contact (args : List String) (book : Book) :
    Book × Except PyErr String :=
  match args with
  | name :: phone :: _ =>
    (match bookFind book name with
     | some r =>
       if phone != "" then
         match r.add_phone phone with
         | .error e => (book, .error e)
         | .ok r2 => (addRecord book r2, .ok "Contact updated.")
       else (book, .ok "Contact updated.")
     | none =>
       match mkRecord name with
       | .error e => (book, .error e)
       | .ok r =>
         let book1 := addRecord book r
         if phone != "" then
           match r.add_phone phone with
           | .error e => (book1, .error e)
           | .ok r2 => (addRecord book1 r2, .ok "Contact added.")
         else (book1, .ok "Contact added."))
  | _ =>
    (book, .error (.valueError
      "Missing arguments. Usage: add <name> <10-digit phone>"))

/-- The `change` handler `change_phone`: arity check, lookup (raising `KeyError` for an
absent contact), then `edit_phone`. -/
def change_phone (args : List String) (book : Book) :
    Book × Except PyErr String :=
  match args with
  | name :: oldp :: newp :: _ =>
    (match bookFind book name with
     | none => (book, .error (.keyError "Contact not found."))
     | some r =>
       match r.edit_phone oldp newp with
       | .error e => (book, .error e)
       | .ok r2 => (addRecord book r2, .ok "Phone number updated."))
  | _ =>
    (book, .error (.valueError
      "Missing arguments. Usage: change <name> <old-phone> <new-phone>"))

/-- The `add-birthday` handler: arity check, find-or-create the record
(inserting a fresh one into the book *before* the date is parsed), then
set the birthday. -/
def add_birthday (args : List String) (book : Book) :
    Book × Except PyErr String :=
  match args with
  | name :: bstr :: _ =>
    (match bookFind book name with
     | some r =>
       match r.add_birthday bstr with
       | .error e => (book, .error e)
       | .ok r2 => (addRecord book r2, .ok "Birthday added.")
     | none =>
       match mkRecord name with
       | .error e => (book, .error e)
       | .ok r =>
         let book1 := addRecord book r
         match r.add_birthday bstr with
         | .error e => (book1, .error e)
         | .ok r2 => (addRecord book1 r2, .ok "Birthday added."))
  | _ =>
    (book, .error (.valueError
      "Missing arguments. Usage: add-birthday <name> <DD.MM.YYYY>"))

/-- The `show-birthday` handler. -/
def show_birthday (args : List String) (book : Book) :
    Book × Except PyErr String :=
  match args with
  | name :: _ =>
    (match bookFind book name with
     | none => (book, .error (.keyError "Contact not found."))
     | some r =>
       match r.birthday with
       | none => (book, .ok "Birthday not set.")
       | some b => (book, .ok (renderDate b)))
  | _ =>
    (book, .error (.valueError
      "Missing contact name. Usage: show-birthday <name>"))

/-- The `birthdays` handler loop: walk the records in book order,
skipping those without a birthday, collecting
`(congratulation date, name)` for the contacts in the window; the first
exception aborts the whole traversal. -/
def collectUpcoming (today : PyDate) : Book → Except PyErr (List (PyDate × String))
  | [] => .ok []
  | r :: rs =>
    match r.birthday with
    | none => collectUpcoming today rs
    | some b =>
      match upcomingOf today b with
      | .error e => .error e
      | .ok none => collectUpcoming today rs
      | .ok (some g) =>
        (collectUpcoming today rs).map (fun l => (g, r.name) :: l)

/-- Model of `upcoming.setdefault(date, []).append(name)` over the collected
pairs: group names under their date, keys in first-appearance order. -/
def groupPairs : List (PyDate × String) → List (PyDate × List String)
  | [] => []
  | (d, n) :: rest =>
    let g := groupPairs rest
    if (g.find? (fun p => p.1 = d)).isSome then
      g.map (fun p => if p.1 = d then (p.1, n :: p.2) else p)
    else (d, [n]) :: g

/-- Insertion sort of the group list by date (`sorted(upcoming)`). -/
def insertByDate (x : PyDate × List String) :
    List (PyDate × List String) → List (PyDate × List String)
  | [] => [x]
  | y :: ys => if dlt x.1 y.1 then x :: y :: ys else y :: insertByDate x ys

/-- Python `sorted` on the grouped dates. -/
def sortByDate : List (PyDate × List String) → List (PyDate × List String)
  | [] => []
  | x :: xs => insertByDate x (sortByDate xs)

/-- Insertion sort of names (`sorted(upcoming[day])`, lexicographic). -/
def insertName (x : String) : List String → List String
  | [] => [x]
  | y :: ys => if x < y then x :: y :: ys else y :: insertName x ys

/-- Python `sorted` on the names of one group. -/
def sortNames : List String → List String
  | [] => []
  | x :: xs => insertName x (sortNames xs)

/-- Model of the comma join of a name group. -/
def joinComma : List String → String
  | [] => ""
  | [x] => x
  | x :: xs => x ++ ", " ++ joinComma xs

/-- One output line of the `birthdays` report. -/
def birthdayLine (p : PyDate × List String) : String :=
  renderDate p.1 ++ ": " ++ joinComma (sortNames p.2)

/-- Model of the newline join of the report lines. -/
def joinNl : List String → String
  | [] => ""
  | [x] => x
  | x :: xs => x ++ "\n" ++ joinNl xs

/-- The `birthdays` handler with the clock read passed explicitly:
collect the windowed contacts (first exception aborts), then either the
empty-report message or the grouped, date-sorted, name-sorted lines. -/
def birthdays (today : PyDate) (args : List String) (book : Book) :
    Book × Except PyErr String :=
  match args with
  | _ :: _ =>
    (book, .error (.valueError "No extra arguments expected. Usage: birthdays"))
  | [] =>
    match collectUpcoming today book with
    | .error e => (book, .error e)
    | .ok pairs =>
      if pairs.isEmpty then (book, .ok "No upcoming birthdays.")
      else
        (book, .ok (joinNl ((sortByDate (groupPairs pairs)).map birthdayLine)))

/-! ## Specification-side definitions

These follow the words of the spec and the claims, to be compared with
the embedded code above. -/

/-- Spec: the candidate next occurrence of birthday `b` as of `today` —
month/day applied to `today`'s year, advanced one year when strictly
before `today` (stated without the revalidation the code performs). -/
def specCandidate (today b : PyDate) : PyDate :=
  let c0 : PyDate := ⟨today.year, b.month, b.day⟩
  if dlt c0 today then ⟨today.year + 1, b.month, b.day⟩ else c0

/-- Spec: `delta = candidate − today` in days. -/
def specDelta (today b : PyDate) : Int :=
  ordInt (specCandidate today b) - ordInt today

/-- Spec invariant for one record: every stored phone has passed the
10-digit check and the birthday, when present, is a real calendar date. -/
def RecordInv (r : Record) : Prop :=
  (∀ p ∈ r.phones, validPhone p = true) ∧
    (∀ b, r.birthday = some b → validDate b = true)

/-- Spec invariant for the whole book. -/
def BookInv (book : Book) : Prop := ∀ r ∈ book, RecordInv r

/-- Spec: a string in strict `DD.MM.YYYY` form — two digits, dot, two
digits, dot, four digits — denoting a real calendar date. -/
def strictFormat (s : String) : Bool :=
  match s.data with
  | [d1, d2, c1, m1, m2, c2, y1, y2, y3, y4] =>
    isDig d1 && isDig d2 && c1 = '.' && isDig m1 && isDig m2 && c2 = '.' &&
      isDig y1 && isDig y2 && isDig y3 && isDig y4 &&
      validDate ⟨readNat [y1, y2, y3, y4], readNat [m1, m2], readNat [d1, d2]⟩
  | _ => false

/-- Spec: the shapes `strptime("%d.%m.%Y")` can accept at all — two
dot-separated numeric components of 1–2 digits in range and a 4-digit
year, denoting a constructible date. Its negation covers every
malformed string: wrong separators, non-numeric components, impossible
calendar dates. -/
def goodShape (s : String) : Bool :=
  match takeToDot s.data with
  | none => false
  | some (p1, r1) =>
    match takeToDot r1 with
    | none => false
    | some (p2, p3) =>
      dayPart p1 && monthPart p2 && yearPart p3 &&
        validDate ⟨readNat p3, readNat p2, readNat p1⟩

/-! ## Lemmas and claim theorems -/

theorem daysInMonth_pos (y m : Nat) : 1 ≤ daysInMonth y m := by
  unfold daysInMonth; split_ifs <;> omega

theorem daysInMonth_le_31 (y m : Nat) : daysInMonth y m ≤ 31 := by
  unfold daysInMonth; split_ifs <;> omega

theorem daysInMonth_year_free (y y' m : Nat) (h : m ≠ 2) :
    daysInMonth y m = daysInMonth y' m := by
  unfold daysInMonth; simp [h]

theorem daysBeforeMonth_succ (y m : Nat) (h : 1 ≤ m) :
    daysBeforeMonth y (m + 1) = daysBeforeMonth y m + daysInMonth y m := by
  match m, h with
  | m + 1, _ => rfl

theorem daysBeforeMonth_mono (y : Nat) {m m' : Nat} (h : m ≤ m') :
    daysBeforeMonth y m ≤ daysBeforeMonth y m' := by
  induction m' with
  | zero => simp_all [daysBeforeMonth]
  | succ k ih =>
    rcases Nat.lt_or_ge m (k + 1) with h2 | h2
    · rcases Nat.eq_zero_or_pos k with rfl | hk
      · interval_cases m <;> simp [daysBeforeMonth]
      · calc daysBeforeMonth y m ≤ daysBeforeMonth y k := ih (by omega)
          _ ≤ _ := by rw [daysBeforeMonth_succ y k hk]; omega
    · have h3 : m = k + 1 := by omega
      exact Nat.le_of_eq (by rw [h3])

theorem daysBeforeMonth_13 (y : Nat) :
    daysBeforeMonth y 13 = if isLeap y then 366 else 365 := by
  have e : daysBeforeMonth y 13 =
      0 + daysInMonth y 1 + daysInMonth y 2 + daysInMonth y 3 + daysInMonth y 4 +
        daysInMonth y 5 + daysInMonth y 6 + daysInMonth y 7 + daysInMonth y 8 +
        daysInMonth y 9 + daysInMonth y 10 + daysInMonth y 11 + daysInMonth y 12 := rfl
  by_cases h : isLeap y <;> simp [e, daysInMonth, h]

theorem isLeap_iff (y : Nat) :
    isLeap y = true ↔ y % 4 = 0 ∧ (y % 100 ≠ 0 ∨ y % 400 = 0) := by
  simp [isLeap, Bool.and_eq_true, Bool.or_eq_true, bne_iff_ne]

set_option maxHeartbeats 2000000 in
theorem daysBeforeYear_succ (y : Nat) (h : 1 ≤ y) :
    daysBeforeYear (y + 1) = daysBeforeYear y + (if isLeap y then 366 else 365) := by
  by_cases hl : isLeap y
  · rw [if_pos hl]
    have h2 := (isLeap_iff y).mp hl
    unfold daysBeforeYear
    omega
  · rw [if_neg hl]
    have h2 : ¬(y % 4 = 0 ∧ (y % 100 ≠ 0 ∨ y % 400 = 0)) := fun hc =>
      hl ((isLeap_iff y).mpr hc)
    clear hl
    unfold daysBeforeYear
    omega

theorem daysBeforeYear_mono {y y' : Nat} (h : y ≤ y') :
    daysBeforeYear y ≤ daysBeforeYear y' := by
  induction y' with
  | zero => simp_all
  | succ k ih =>
    rcases Nat.lt_or_ge y (k + 1) with h2 | h2
    · rcases Nat.eq_zero_or_pos k with rfl | hk
      · interval_cases y <;> simp [daysBeforeYear]
      · calc daysBeforeYear y ≤ daysBeforeYear k := ih (by omega)
          _ ≤ _ := by rw [daysBeforeYear_succ k hk]; split_ifs <;> omega
    · have h3 : y = k + 1 := by omega
      exact Nat.le_of_eq (by rw [h3])

theorem validDate_iff (d : PyDate) :
    validDate d = true ↔
      1 ≤ d.year ∧ d.year ≤ 9999 ∧ 1 ≤ d.month ∧ d.month ≤ 12 ∧
        1 ≤ d.day ∧ d.day ≤ daysInMonth d.year d.month := by
  simp [validDate, Bool.and_eq_true, decide_eq_true_eq, and_assoc]

theorem monthday_le_year (d : PyDate) (h : validDate d = true) :
    daysBeforeMonth d.year d.month + d.day ≤ (if isLeap d.year then 366 else 365) := by
  rw [validDate_iff] at h
  obtain ⟨-, -, hm1, hm2, -, hd2⟩ := h
  calc daysBeforeMonth d.year d.month + d.day
      ≤ daysBeforeMonth d.year d.month + daysInMonth d.year d.month := by omega
    _ = daysBeforeMonth d.year (d.month + 1) := (daysBeforeMonth_succ _ _ hm1).symm
    _ ≤ daysBeforeMonth d.year 13 := daysBeforeMonth_mono _ (by omega)
    _ = _ := daysBeforeMonth_13 _

theorem toOrdinal_le_yearEnd (d : PyDate) (h : validDate d = true) :
    toOrdinal d ≤ daysBeforeYear (d.year + 1) := by
  have h1 := monthday_le_year d h
  have h2 := daysBeforeYear_succ d.year ((validDate_iff d).mp h).1
  unfold toOrdinal
  split_ifs at h1 h2 <;> omega

theorem toOrdinal_lt_of_dlt {a b : PyDate} (ha : validDate a = true)
    (hb : validDate b = true) (h : dlt a b = true) :
    toOrdinal a < toOrdinal b := by
  have hb1 := (validDate_iff b).mp hb
  have ha1 := (validDate_iff a).mp ha
  simp only [dlt, Bool.or_eq_true, Bool.and_eq_true, decide_eq_true_eq] at h
  rcases h with h | ⟨hy, h⟩
  · have h1 : toOrdinal a ≤ daysBeforeYear (a.year + 1) := toOrdinal_le_yearEnd a ha
    have h2 : daysBeforeYear (a.year + 1) ≤ daysBeforeYear b.year :=
      daysBeforeYear_mono (by omega)
    have h3 : 1 ≤ b.day := hb1.2.2.2.2.1
    unfold toOrdinal at *
    omega
  · rcases h with h | ⟨hm, h⟩
    · have h1 : daysBeforeMonth a.year a.month + a.day
          ≤ daysBeforeMonth a.year (a.month + 1) := by
        rw [daysBeforeMonth_succ _ _ ha1.2.2.1]
        have := ha1.2.2.2.2.2; omega
      have h2 : daysBeforeMonth a.year (a.month + 1) ≤ daysBeforeMonth a.year b.month :=
        daysBeforeMonth_mono _ (by omega)
      have h3 : 1 ≤ b.day := hb1.2.2.2.2.1
      unfold toOrdinal
      rw [hy] at h1 h2 ⊢
      omega
    · unfold toOrdinal
      rw [hy, hm]
      omega

theorem dlt_iff (a b : PyDate) :
    dlt a b = true ↔
      a.year < b.year ∨ (a.year = b.year ∧
        (a.month < b.month ∨ (a.month = b.month ∧ a.day < b.day))) := by
  simp [dlt]

theorem dlt_false_cases {a b : PyDate} (h : dlt a b = false) :
    a = b ∨ dlt b a = true := by
  have h1 : ¬(a.year < b.year ∨ (a.year = b.year ∧
      (a.month < b.month ∨ (a.month = b.month ∧ a.day < b.day)))) := by
    rw [← dlt_iff]; simp [h]
  by_cases hy : a.year = b.year
  case pos =>
    by_cases hm : a.month = b.month
    case pos =>
      by_cases hd : a.day = b.day
      case pos => left; cases a; cases b; simp_all
      case neg => right; rw [dlt_iff]; omega
    case neg => right; rw [dlt_iff]; omega
  case neg => right; rw [dlt_iff]; omega

theorem toOrdinal_le_of_dlt_false {a b : PyDate} (ha : validDate a = true)
    (hb : validDate b = true) (h : dlt a b = false) :
    toOrdinal b ≤ toOrdinal a := by
  rcases dlt_false_cases h with rfl | h2
  · exact Nat.le_refl _
  · exact Nat.le_of_lt (toOrdinal_lt_of_dlt hb ha h2)

theorem mkDateE_ok_of_valid {y m d : Nat} (h : validDate ⟨y, m, d⟩ = true) :
    mkDateE y m d = .ok ⟨y, m, d⟩ := by
  rw [validDate_iff] at h
  dsimp only at h
  unfold mkDateE
  rw [if_neg (by omega), if_neg (by omega), if_neg (by push_neg; exact ⟨by omega, h.2.2.2.2.2⟩)]

theorem mkDateE_ok_elim {y m d : Nat} {x : PyDate} (h : mkDateE y m d = .ok x) :
    validDate x = true ∧ x = ⟨y, m, d⟩ := by
  unfold mkDateE at h
  split_ifs at h with h1 h2 h3
  obtain rfl : x = ⟨y, m, d⟩ := by
    injection h with h4
    exact h4.symm
  refine ⟨?_, rfl⟩
  rw [validDate_iff]
  dsimp only
  push_neg at h1 h2 h3
  exact ⟨h1.1, h1.2, h2.1, h2.2, h3.1, h3.2⟩

theorem mkDateE_err_day {y m d : Nat} (hy : 1 ≤ y ∧ y ≤ 9999) (hm : 1 ≤ m ∧ m ≤ 12)
    (hd : daysInMonth y m < d) :
    mkDateE y m d = .error (.valueError "day is out of range for month") := by
  unfold mkDateE
  rw [if_neg (by omega), if_neg (by omega), if_pos (Or.inr hd)]

theorem candidateE_ok_elim {today b c : PyDate} (h : candidateE today b = .ok c) :
    validDate c = true ∧ c = specCandidate today b := by
  unfold candidateE at h
  cases hr : replaceYearE b today.year with
  | error e => rw [hr] at h; cases h
  | ok c0 =>
    rw [hr] at h
    simp only [Except.bind] at h
    obtain ⟨hv0, hc0⟩ := mkDateE_ok_elim hr
    by_cases hlt : dlt c0 today = true
    · rw [if_pos hlt] at h
      obtain ⟨hv1, hc1⟩ := mkDateE_ok_elim h
      refine ⟨hv1, ?_⟩
      unfold specCandidate
      rw [hc0] at hlt
      simp only [hlt, if_true]
      exact hc1
    · rw [if_neg hlt] at h
      cases h
      refine ⟨hv0, ?_⟩
      unfold specCandidate
      rw [hc0] at hlt
      simp only [Bool.not_eq_true] at hlt
      simp only [hlt, if_false]
      exact hc0

theorem candidate_ge_today {today b c : PyDate} (htoday : validDate today = true)
    (h : candidateE today b = .ok c) : toOrdinal today ≤ toOrdinal c := by
  obtain ⟨hv, hspec⟩ := candidateE_ok_elim h
  unfold candidateE at h
  cases hr : replaceYearE b today.year with
  | error e => rw [hr] at h; cases h
  | ok c0 =>
    rw [hr] at h
    simp only [Except.bind] at h
    obtain ⟨hv0, hc0⟩ := mkDateE_ok_elim hr
    by_cases hlt : dlt c0 today = true
    · rw [if_pos hlt] at h
      obtain ⟨hv1, hc1⟩ := mkDateE_ok_elim h
      have hy : today.year < c.year := by rw [hc1]; exact Nat.lt_succ_self _
      have : dlt today c = true := by rw [dlt_iff]; left; exact hy
      exact Nat.le_of_lt (toOrdinal_lt_of_dlt htoday hv this)
    · rw [if_neg hlt] at h
      cases h
      simp only [Bool.not_eq_true] at hlt
      exact toOrdinal_le_of_dlt_false hv0 htoday hlt

theorem toOrdinal_pos (d : PyDate) (h : validDate d = true) : 1 ≤ toOrdinal d := by
  have h1 := ((validDate_iff d).mp h).2.2.2.2.1
  unfold toOrdinal
  omega

theorem daysInMonth_12 (y : Nat) : daysInMonth y 12 = 31 := rfl

theorem daysInMonth_1 (y : Nat) : daysInMonth y 1 = 31 := rfl

theorem validDate_mk_iff (y m d : Nat) :
    validDate ⟨y, m, d⟩ = true ↔
      1 ≤ y ∧ y ≤ 9999 ∧ 1 ≤ m ∧ m ≤ 12 ∧ 1 ≤ d ∧ d ≤ daysInMonth y m :=
  validDate_iff ⟨y, m, d⟩

theorem toOrdinal_mk (y m d : Nat) :
    toOrdinal ⟨y, m, d⟩ = daysBeforeYear y + daysBeforeMonth y m + d := rfl

theorem nextDay_correct {d : PyDate} (h : validDate d = true)
    (hlt : toOrdinal d < toOrdinal ⟨9999, 12, 31⟩) :
    validDate (nextDay d) = true ∧ toOrdinal (nextDay d) = toOrdinal d + 1 := by
  have hv := (validDate_iff d).mp h
  unfold nextDay
  split_ifs with h1 h2
  · constructor
    · rw [validDate_mk_iff]
      omega
    · rw [toOrdinal_mk]
      unfold toOrdinal
      omega
  · have hsucc := daysBeforeMonth_succ d.year d.month hv.2.2.1
    constructor
    · rw [validDate_mk_iff]
      have hp := daysInMonth_pos d.year (d.month + 1)
      omega
    · rw [toOrdinal_mk]
      unfold toOrdinal
      omega
  · have hm12 : d.month = 12 := by omega
    have hday : d.day = 31 := by
      have h31 := hv.2.2.2.2.2
      have h1b := h1
      rw [hm12, daysInMonth_12] at h31 h1b
      omega
    have hy : d.year ≤ 9998 := by
      by_contra hc
      push_neg at hc
      have h9999 : d.year = 9999 := by omega
      have hmax : toOrdinal ⟨9999, 12, 31⟩
          = daysBeforeYear 9999 + daysBeforeMonth 9999 12 + 31 := rfl
      rw [hmax] at hlt
      unfold toOrdinal at hlt
      rw [h9999, hm12, hday] at hlt
      omega
    have hsucc := daysBeforeYear_succ d.year hv.1
    have h13 : daysBeforeMonth d.year 13 = daysBeforeMonth d.year 12 + 31 := by
      rw [daysBeforeMonth_succ d.year 12 (by omega), daysInMonth_12]
    have h13v := daysBeforeMonth_13 d.year
    constructor
    · rw [validDate_mk_iff]
      have hp := daysInMonth_1 (d.year + 1)
      omega
    · rw [toOrdinal_mk]
      have hb1 : daysBeforeMonth (d.year + 1) 1 = 0 := rfl
      unfold toOrdinal
      rw [hb1, hm12]
      split_ifs at hsucc h13v <;> omega

theorem addDays_correct (k : Nat) {d : PyDate} (h : validDate d = true)
    (hb : toOrdinal d + k ≤ toOrdinal ⟨9999, 12, 31⟩) :
    validDate (addDays d k) = true ∧ toOrdinal (addDays d k) = toOrdinal d + k := by
  induction k with
  | zero => exact ⟨h, rfl⟩
  | succ n ih =>
    obtain ⟨hv, he⟩ := ih (by omega)
    have hstep := nextDay_correct hv (by omega)
    refine ⟨hstep.1, ?_⟩
    show toOrdinal (nextDay (addDays d n)) = toOrdinal d + (n + 1)
    rw [hstep.2, he]
    omega

theorem weekday_addDays (k : Nat) {d : PyDate} (h : validDate d = true)
    (hb : toOrdinal d + k ≤ toOrdinal ⟨9999, 12, 31⟩) :
    weekday (addDays d k) = (weekday d + k) % 7 := by
  have h1 := (addDays_correct k h hb).2
  have h2 := toOrdinal_pos d h
  unfold weekday
  rw [h1]
  omega

theorem upcomingOf_ok_of_candidate {today b c : PyDate}
    (h : candidateE today b = .ok c) :
    upcomingOf today b = .ok
      (if 0 ≤ ordInt c - ordInt today ∧ ordInt c - ordInt today < 7 then
        some (if 5 ≤ weekday c then addDays c (7 - weekday c) else c)
      else none) := by
  unfold upcomingOf
  rw [h]
  rfl

theorem upcomingOf_err_of_candidate {today b : PyDate} {e : PyErr}
    (h : candidateE today b = .error e) :
    upcomingOf today b = .error e := by
  unfold upcomingOf
  rw [h]
  rfl

theorem daysInMonth_2_nonleap {y : Nat} (h : isLeap y = false) :
    daysInMonth y 2 = 28 := by
  unfold daysInMonth
  rw [if_pos rfl, h]
  rfl

theorem daysInMonth_2_bounds (y : Nat) :
    28 ≤ daysInMonth y 2 ∧ daysInMonth y 2 ≤ 29 := by
  unfold daysInMonth
  rw [if_pos rfl]
  split_ifs <;> omega

theorem candidateE_feb29_err {today b : PyDate} (hm : b.month = 2) (hd : b.day = 29)
    (htoday : validDate today = true) (hleap : isLeap today.year = false) :
    candidateE today b = .error (.valueError "day is out of range for month") := by
  have hv := (validDate_iff today).mp htoday
  have hr : replaceYearE b today.year
      = .error (.valueError "day is out of range for month") := by
    unfold replaceYearE
    rw [hm, hd]
    exact mkDateE_err_day ⟨hv.1, hv.2.1⟩ (by omega)
      (by rw [daysInMonth_2_nonleap hleap]; omega)
  unfold candidateE
  rw [hr]
  rfl

theorem candidateE_ok_of_fits {today b : PyDate} (htoday : validDate today = true)
    (hy : today.year ≤ 9998) (hb : validDate b = true)
    (hnot : ¬(b.month = 2 ∧ b.day = 29)) :
    ∃ c, candidateE today b = .ok c := by
  have hvt := (validDate_iff today).mp htoday
  have hvb := (validDate_iff b).mp hb
  have hfits : ∀ y : Nat, b.day ≤ daysInMonth y b.month := by
    intro y
    by_cases hm2 : b.month = 2
    · have h1 := daysInMonth_2_bounds b.year
      have h2 := daysInMonth_2_bounds y
      have h3 : b.day ≠ 29 := fun hc => hnot ⟨hm2, hc⟩
      have h4 := hvb.2.2.2.2.2
      rw [hm2] at h4
      rw [hm2]
      omega
    · have := daysInMonth_year_free b.year y b.month hm2
      have h4 := hvb.2.2.2.2.2
      omega
  have hr0 : replaceYearE b today.year = .ok ⟨today.year, b.month, b.day⟩ := by
    unfold replaceYearE
    exact mkDateE_ok_of_valid (by rw [validDate_mk_iff]; exact
      ⟨hvt.1, by omega, hvb.2.2.1, hvb.2.2.2.1, hvb.2.2.2.2.1, hfits _⟩)
  have hr1 : replaceYearE b (today.year + 1) = .ok ⟨today.year + 1, b.month, b.day⟩ := by
    unfold replaceYearE
    exact mkDateE_ok_of_valid (by rw [validDate_mk_iff]; exact
      ⟨by omega, by omega, hvb.2.2.1, hvb.2.2.2.1, hvb.2.2.2.2.1, hfits _⟩)
  by_cases hlt : dlt ⟨today.year, b.month, b.day⟩ today = true
  · refine ⟨⟨today.year + 1, b.month, b.day⟩, ?_⟩
    unfold candidateE
    rw [hr0]
    show (if dlt (⟨today.year, b.month, b.day⟩ : PyDate) today = true then
        replaceYearE b (today.year + 1)
      else .ok ⟨today.year, b.month, b.day⟩) = _
    rw [if_pos hlt, hr1]
  · refine ⟨⟨today.year, b.month, b.day⟩, ?_⟩
    unfold candidateE
    rw [hr0]
    show (if dlt (⟨today.year, b.month, b.day⟩ : PyDate) today = true then
        replaceYearE b (today.year + 1)
      else .ok ⟨today.year, b.month, b.day⟩) = _
    rw [if_neg hlt]

theorem today_le_9998_ord {today : PyDate} (h : validDate today = true)
    (hy : today.year ≤ 9998) :
    toOrdinal today ≤ toOrdinal ⟨9998, 12, 31⟩ := by
  have hv := (validDate_iff today).mp h
  have hdim := daysInMonth_le_31 today.year today.month
  have hf : dlt ⟨9998, 12, 31⟩ today = false := by
    rw [Bool.eq_false_iff]
    intro hc
    rw [dlt_iff] at hc
    dsimp only at hc
    omega
  exact toOrdinal_le_of_dlt_false (by decide) h hf

theorem weekday_lt (d : PyDate) : weekday d < 7 := Nat.mod_lt _ (by omega)

/-- C1: with the birthday's candidate next occurrence constructed
successfully, the `birthdays` loop includes a contact exactly when
`delta = candidate - today` satisfies `0 ≤ delta < 7`; in particular
`delta = 0` is included and `delta = 7` is excluded. -/
theorem upcoming_iff_window (today b c : PyDate) (h : candidateE today b = .ok c) :
    ((∃ g, upcomingOf today b = .ok (some g)) ↔
      0 ≤ specDelta today b ∧ specDelta today b < 7) ∧
    specDelta today b = ordInt c - ordInt today := by
  obtain ⟨hv, hspec⟩ := candidateE_ok_elim h
  have hvalue := upcomingOf_ok_of_candidate h
  have hdelta : specDelta today b = ordInt c - ordInt today := by
    unfold specDelta
    rw [← hspec]
  refine ⟨?_, hdelta⟩
  rw [hdelta]
  constructor
  · rintro ⟨g, hg⟩
    rw [hvalue] at hg
    by_contra hcon
    rw [if_neg hcon] at hg
    simp at hg
  · intro hw
    rw [hvalue, if_pos hw]
    exact ⟨_, rfl⟩

theorem upcoming_iff_window_witness :
    (∃ g, upcomingOf ⟨2025, 10, 6⟩ ⟨1990, 10, 6⟩ = .ok (some g)) ∧
      ¬(∃ g, upcomingOf ⟨2025, 10, 6⟩ ⟨1990, 10, 13⟩ = .ok (some g)) :=
  ⟨((upcoming_iff_window ⟨2025, 10, 6⟩ ⟨1990, 10, 6⟩ ⟨2025, 10, 6⟩ rfl).1).mpr
      (by decide),
   fun hex =>
    absurd (((upcoming_iff_window ⟨2025, 10, 6⟩ ⟨1990, 10, 13⟩ ⟨2025, 10, 13⟩
      rfl).1).mp hex) (by decide)⟩

/-- C2: an included contact's congratulation date is the candidate
unchanged on Monday-Friday, candidate plus 2 days on Saturday,
candidate plus 1 day on Sunday; a weekend candidate always lands on the
following Monday (weekday 0). -/
theorem weekend_shift (today b c g : PyDate)
    (htoday : validDate today = true) (hy : today.year ≤ 9998)
    (hc : candidateE today b = .ok c)
    (hg : upcomingOf today b = .ok (some g)) :
    (g = if weekday c = 5 then addDays c 2
         else if weekday c = 6 then addDays c 1 else c) ∧
      (5 ≤ weekday c → weekday g = 0) := by
  obtain ⟨hv, hspec⟩ := candidateE_ok_elim hc
  have hvalue := upcomingOf_ok_of_candidate hc
  rw [hvalue] at hg
  by_cases hw : 0 ≤ ordInt c - ordInt today ∧ ordInt c - ordInt today < 7
  case neg =>
    rw [if_neg hw] at hg
    simp at hg
  case pos =>
    rw [if_pos hw] at hg
    simp only [Except.ok.injEq, Option.some.injEq] at hg
    have hwd7 := weekday_lt c
    have hbound : toOrdinal c + 2 ≤ toOrdinal ⟨9999, 12, 31⟩ := by
      have h98 := today_le_9998_ord htoday hy
      have hcap : toOrdinal (⟨9998, 12, 31⟩ : PyDate) + 9
          ≤ toOrdinal ⟨9999, 12, 31⟩ := by decide
      have hw2 := hw.2
      unfold ordInt at hw2
      omega
    by_cases h5 : weekday c = 5
    · have hsle : 5 ≤ weekday c := by omega
      rw [if_pos hsle, h5] at hg
      refine ⟨by rw [if_pos h5]; exact hg.symm, fun _ => ?_⟩
      rw [← hg]
      show weekday (addDays c 2) = 0
      rw [weekday_addDays 2 hv hbound, h5]
    · by_cases h6 : weekday c = 6
      · have hsle : 5 ≤ weekday c := by omega
        rw [if_pos hsle, h6] at hg
        refine ⟨by rw [if_neg h5, if_pos h6]; exact hg.symm, fun _ => ?_⟩
        rw [← hg]
        show weekday (addDays c 1) = 0
        rw [weekday_addDays 1 hv (by omega), h6]
      · have hnle : ¬ 5 ≤ weekday c := by omega
        rw [if_neg hnle] at hg
        exact ⟨by rw [if_neg h5, if_neg h6]; exact hg.symm,
          fun hc5 => absurd hc5 hnle⟩

theorem weekend_shift_witness :
    upcomingOf ⟨2025, 10, 6⟩ ⟨1990, 10, 11⟩ = .ok (some ⟨2025, 10, 13⟩) ∧
      (⟨2025, 10, 13⟩ : PyDate)
        = (if weekday ⟨2025, 10, 11⟩ = 5 then addDays ⟨2025, 10, 11⟩ 2
           else if weekday ⟨2025, 10, 11⟩ = 6 then addDays ⟨2025, 10, 11⟩ 1
           else ⟨2025, 10, 11⟩) ∧
      weekday ⟨2025, 10, 13⟩ = 0 :=
  ⟨rfl,
   (weekend_shift ⟨2025, 10, 6⟩ ⟨1990, 10, 11⟩ ⟨2025, 10, 11⟩ ⟨2025, 10, 13⟩
      (by decide) (by decide) rfl rfl).1,
   (weekend_shift ⟨2025, 10, 6⟩ ⟨1990, 10, 11⟩ ⟨2025, 10, 11⟩ ⟨2025, 10, 13⟩
      (by decide) (by decide) rfl rfl).2 (by decide)⟩

/-- C6 (amended): `days_to_birthday` returns `None` without a birthday;
when the candidate construction succeeds it returns the non-negative
day count to the candidate next occurrence (the function is pure, so
determinism and non-mutation hold by construction). -/
theorem days_to_birthday_spec :
    (∀ (r : Record) (today : PyDate), r.birthday = none →
        r.days_to_birthday today = .ok none) ∧
    (∀ (r : Record) (today b c : PyDate), r.birthday = some b →
        validDate today = true → candidateE today b = .ok c →
        r.days_to_birthday today = .ok (some (specDelta today b)) ∧
          0 ≤ specDelta today b) := by
  constructor
  · intro r today hb
    simp only [Record.days_to_birthday, hb]
  · intro r today b c hb htoday hcand
    obtain ⟨hv, hspec⟩ := candidateE_ok_elim hcand
    have hge := candidate_ge_today htoday hcand
    have hdelta : specDelta today b = ordInt c - ordInt today := by
      unfold specDelta
      rw [← hspec]
    constructor
    · simp only [Record.days_to_birthday, hb, hcand, Except.map, hdelta]
    · rw [hdelta]
      unfold ordInt
      omega

/-- C6 counterexample: with a February 29 birthday and a non-leap
`today` year the call raises a `ValueError` instead of returning a day
count. -/
theorem days_to_birthday_feb29_error :
    Record.days_to_birthday ⟨"Ann", [], some ⟨2020, 2, 29⟩⟩ ⟨2025, 3, 1⟩
      = .error (.valueError "day is out of range for month") := rfl

theorem days_to_birthday_spec_witness :
    Record.days_to_birthday ⟨"Ann", [], some ⟨1990, 3, 15⟩⟩ ⟨2024, 1, 1⟩
        = .ok (some (specDelta ⟨2024, 1, 1⟩ ⟨1990, 3, 15⟩)) ∧
      0 ≤ specDelta ⟨2024, 1, 1⟩ ⟨1990, 3, 15⟩ :=
  days_to_birthday_spec.2 ⟨"Ann", [], some ⟨1990, 3, 15⟩⟩ ⟨2024, 1, 1⟩
    ⟨1990, 3, 15⟩ ⟨2024, 3, 15⟩ rfl (by decide) rfl

theorem collect_feb29_error (today : PyDate) (book : Book)
    (hinv : BookInv book) (htoday : validDate today = true)
    (hy : today.year ≤ 9998) (hleap : isLeap today.year = false)
    (hex : ∃ r ∈ book, ∃ b, r.birthday = some b ∧ b.month = 2 ∧ b.day = 29) :
    collectUpcoming today book
      = .error (.valueError "day is out of range for month") := by
  induction book with
  | nil =>
    obtain ⟨r, hr, -⟩ := hex
    cases hr
  | cons r0 rs ih =>
    have hinv0 : RecordInv r0 := hinv r0 (List.mem_cons_self _ _)
    have hinvrs : BookInv rs := fun r hr => hinv r (List.mem_cons_of_mem _ hr)
    cases hb0 : r0.birthday with
    | none =>
      simp only [collectUpcoming, hb0]
      apply ih hinvrs
      obtain ⟨r, hr, b, hb, hbm, hbd⟩ := hex
      rcases List.mem_cons.mp hr with rfl | hr2
      · rw [hb0] at hb; cases hb
      · exact ⟨r, hr2, b, hb, hbm, hbd⟩
    | some b0 =>
      by_cases hfeb : b0.month = 2 ∧ b0.day = 29
      · have herr := candidateE_feb29_err hfeb.1 hfeb.2 htoday hleap
        have hup := upcomingOf_err_of_candidate herr
        simp only [collectUpcoming, hb0, hup]
      · have hvb0 : validDate b0 = true := hinv0.2 b0 hb0
        obtain ⟨c, hcand⟩ := candidateE_ok_of_fits htoday hy hvb0 hfeb
        have hup := upcomingOf_ok_of_candidate hcand
        have hrest : collectUpcoming today rs
            = .error (.valueError "day is out of range for month") := by
          apply ih hinvrs
          obtain ⟨r, hr, b, hb, hbm, hbd⟩ := hex
          rcases List.mem_cons.mp hr with rfl | hr2
          · rw [hb0] at hb
            injection hb with hbe
            exact absurd ⟨by rw [← hbe] at hbm; exact hbm,
              by rw [← hbe] at hbd; exact hbd⟩ hfeb
          · exact ⟨r, hr2, b, hb, hbm, hbd⟩
        by_cases hwin : 0 ≤ ordInt c - ordInt today ∧ ordInt c - ordInt today < 7
        · rw [if_pos hwin] at hup
          simp only [collectUpcoming, hb0, hup, hrest, Except.map]
        · rw [if_neg hwin] at hup
          simp only [collectUpcoming, hb0, hup]
          exact hrest

/-- C10: a stored February 29 birthday with a non-leap `today` year makes
`days_to_birthday` raise `ValueError("day is out of range for month")`,
and the same failure inside the `birthdays` loop aborts the whole
listing, which the `input_error` adapter renders as that message. -/
theorem feb29_nonleap_raises :
    (∀ (r : Record) (today b : PyDate), r.birthday = some b →
        b.month = 2 → b.day = 29 → validDate today = true →
        isLeap today.year = false →
        r.days_to_birthday today
          = .error (.valueError "day is out of range for month")) ∧
    (∀ (book : Book) (today : PyDate) (r : Record) (b : PyDate),
        BookInv book → r ∈ book → r.birthday = some b →
        b.month = 2 → b.day = 29 →
        validDate today = true → today.year ≤ 9998 →
        isLeap today.year = false →
        inputError (birthdays today [] book)
          = (book, "day is out of range for month")) := by
  constructor
  · intro r today b hb hm hd htoday hleap
    have herr := candidateE_feb29_err hm hd htoday hleap
    simp only [Record.days_to_birthday, hb, herr, Except.map]
  · intro book today r b hinv hr hb hm hd htoday hy hleap
    have hcol := collect_feb29_error today book hinv htoday hy hleap
      ⟨r, hr, b, hb, hm, hd⟩
    simp only [birthdays, hcol, inputError, strOfPyErr]

theorem feb29_nonleap_raises_witness :
    Record.days_to_birthday ⟨"Ann", [], some ⟨2020, 2, 29⟩⟩ ⟨2025, 1, 10⟩
        = .error (.valueError "day is out of range for month") ∧
      inputError (birthdays ⟨2025, 1, 10⟩ [] [⟨"Ann", [], some ⟨2020, 2, 29⟩⟩])
        = ([⟨"Ann", [], some ⟨2020, 2, 29⟩⟩], "day is out of range for month") :=
  ⟨feb29_nonleap_raises.1 ⟨"Ann", [], some ⟨2020, 2, 29⟩⟩ ⟨2025, 1, 10⟩
      ⟨2020, 2, 29⟩ rfl rfl rfl (by decide) (by decide),
   feb29_nonleap_raises.2 [⟨"Ann", [], some ⟨2020, 2, 29⟩⟩] ⟨2025, 1, 10⟩
      ⟨"Ann", [], some ⟨2020, 2, 29⟩⟩ ⟨2020, 2, 29⟩
      (by
        intro r' hr'
        rw [List.mem_singleton] at hr'
        subst hr'
        refine ⟨?_, ?_⟩
        · intro p hp
          cases hp
        · intro b' hb'
          injection hb' with hbe
          rw [← hbe]
          decide)
      (List.mem_singleton_self _) rfl rfl rfl (by decide) (by decide) (by decide)⟩

theorem mkPhone_ok_elim {s p : String} (h : mkPhone s = .ok p) :
    validPhone p = true ∧ p = s := by
  unfold mkPhone at h
  split_ifs at h with hv
  injection h with h2
  exact ⟨h2 ▸ hv, h2.symm⟩

theorem mkPhone_err {s : String} (h : validPhone s = false) :
    mkPhone s = .error (.valueError invalidPhoneMsg) := by
  unfold mkPhone
  rw [if_neg (by rw [h]; exact Bool.false_ne_true)]

theorem parseBirthday_ok_valid {s : String} {d : PyDate}
    (h : parseBirthday s = .ok d) : validDate d = true := by
  unfold parseBirthday at h
  cases h1 : takeToDot s.data with
  | none => rw [h1] at h; cases h
  | some p =>
    obtain ⟨p1, r1⟩ := p
    rw [h1] at h
    cases h2 : takeToDot r1 with
    | none =>
      simp only [h2] at h
      exact Except.noConfusion h
    | some q =>
      obtain ⟨p2, p3⟩ := q
      simp only [h2] at h
      split_ifs at h with h3
      · cases h4 : mkDateE (readNat p3) (readNat p2) (readNat p1) with
        | ok x =>
          simp only [h4] at h
          injection h with h5
          rw [← h5]
          exact (mkDateE_ok_elim h4).1
        | error e =>
          simp only [h4] at h
          exact Except.noConfusion h

theorem bookFind_mem {book : Book} {name : String} {r : Record}
    (h : bookFind book name = some r) : r ∈ book := by
  induction book with
  | nil => cases h
  | cons x xs ih =>
    unfold bookFind at h
    split_ifs at h with he
    · injection h with h2
      exact List.mem_cons.mpr (Or.inl h2.symm)
    · exact List.mem_cons_of_mem _ (ih h)

theorem addRecord_mem {book : Book} {r r' : Record}
    (h : r' ∈ addRecord book r) : r' = r ∨ r' ∈ book := by
  induction book with
  | nil =>
    unfold addRecord at h
    rw [List.mem_singleton] at h
    exact Or.inl h
  | cons x xs ih =>
    unfold addRecord at h
    split_ifs at h with he
    · rcases List.mem_cons.mp h with h2 | h2
      · exact Or.inl h2
      · exact Or.inr (List.mem_cons_of_mem _ h2)
    · rcases List.mem_cons.mp h with h2 | h2
      · exact Or.inr (h2 ▸ List.mem_cons_self _ _)
      · rcases ih h2 with h3 | h3
        · exact Or.inl h3
        · exact Or.inr (List.mem_cons_of_mem _ h3)

theorem BookInv_addRecord {book : Book} {r : Record}
    (hinv : BookInv book) (hr : RecordInv r) : BookInv (addRecord book r) :=
  fun r' h => (addRecord_mem h).elim (fun he => he ▸ hr) (fun hm => hinv r' hm)

theorem BookInv_nil : BookInv [] := fun r h => absurd h (List.not_mem_nil r)

theorem bookFind_addRecord_self (book : Book) (r : Record) :
    bookFind (addRecord book r) r.name = some r := by
  induction book with
  | nil =>
    unfold addRecord bookFind
    rw [if_pos rfl]
  | cons x xs ih =>
    unfold addRecord
    by_cases he : x.name = r.name
    · rw [if_pos he]
      unfold bookFind
      rw [if_pos rfl]
    · rw [if_neg he]
      unfold bookFind
      rw [if_neg he]
      exact ih

theorem RecordInv_add_phone {r r2 : Record} {p : String}
    (hinv : RecordInv r) (h : r.add_phone p = .ok r2) : RecordInv r2 := by
  unfold Record.add_phone at h
  cases hm : mkPhone p with
  | error e =>
    simp only [hm, Except.map] at h
    exact Except.noConfusion h
  | ok v =>
    simp only [hm, Except.map] at h
    injection h with h2
    obtain ⟨hval, -⟩ := mkPhone_ok_elim hm
    rw [← h2]
    refine ⟨?_, hinv.2⟩
    intro q hq
    rcases List.mem_append.mp hq with hq2 | hq2
    · exact hinv.1 q hq2
    · rw [List.mem_singleton.mp hq2]
      exact hval

theorem RecordInv_edit_phone {r r2 : Record} {oldp newp : String}
    (hinv : RecordInv r) (h : r.edit_phone oldp newp = .ok r2) : RecordInv r2 := by
  unfold Record.edit_phone at h
  cases hi : idxOf? oldp r.phones with
  | none =>
    simp only [hi] at h
    exact Except.noConfusion h
  | some i =>
    simp only [hi] at h
    cases hm : mkPhone newp with
    | error e =>
      simp only [hm, Except.map] at h
      exact Except.noConfusion h
    | ok v =>
      simp only [hm, Except.map] at h
      injection h with h2
      obtain ⟨hval, -⟩ := mkPhone_ok_elim hm
      rw [← h2]
      refine ⟨?_, hinv.2⟩
      intro q hq
      rcases List.mem_or_eq_of_mem_set hq with hq2 | hq2
      · exact hinv.1 q hq2
      · rw [hq2]
        exact hval

theorem RecordInv_remove_phone {r r2 : Record} {p : String}
    (hinv : RecordInv r) (h : r.remove_phone p = .ok r2) : RecordInv r2 := by
  unfold Record.remove_phone at h
  cases hf : r.find_phone p with
  | none =>
    simp only [hf] at h
    exact Except.noConfusion h
  | some q =>
    simp only [hf] at h
    injection h with h2
    rw [← h2]
    exact ⟨fun x hx => hinv.1 x (List.mem_of_mem_erase hx), hinv.2⟩

theorem RecordInv_add_birthday {r r2 : Record} {s : String}
    (hinv : RecordInv r) (h : r.add_birthday s = .ok r2) : RecordInv r2 := by
  unfold Record.add_birthday at h
  cases hp : parseBirthday s with
  | error e =>
    simp only [hp, Except.map] at h
    exact Except.noConfusion h
  | ok d =>
    simp only [hp, Except.map] at h
    injection h with h2
    rw [← h2]
    refine ⟨hinv.1, ?_⟩
    intro b hb
    injection hb with h3
    rw [← h3]
    exact parseBirthday_ok_valid hp

theorem RecordInv_mk {name : String} {r : Record} (h : mkRecord name = .ok r) :
    RecordInv r ∧ r = ⟨name, [], none⟩ := by
  unfold mkRecord at h
  split_ifs at h with he
  cases h
  exact ⟨⟨fun p hp => absurd hp (List.not_mem_nil p), fun b hb => by cases hb⟩, rfl⟩

theorem BookInv_add_contact (args : List String) (book : Book)
    (hinv : BookInv book) : BookInv (add_contact args book).1 := by
  rcases args with _ | ⟨name, _ | ⟨phone, rest⟩⟩
  · exact hinv
  · exact hinv
  · simp only [add_contact]
    cases hf : bookFind book name with
    | some r =>
      dsimp only
      by_cases hp : (phone != "") = true
      · rw [if_pos hp]
        cases ha : r.add_phone phone with
        | error e => exact hinv
        | ok r2 =>
          dsimp only
          exact BookInv_addRecord hinv
            (RecordInv_add_phone (hinv r (bookFind_mem hf)) ha)
      · rw [if_neg hp]
        exact hinv
    | none =>
      dsimp only
      cases hmk : mkRecord name with
      | error e => exact hinv
      | ok r =>
        dsimp only
        obtain ⟨hr, hre⟩ := RecordInv_mk hmk
        by_cases hp : (phone != "") = true
        · rw [if_pos hp]
          cases ha : r.add_phone phone with
          | error e => exact BookInv_addRecord hinv hr
          | ok r2 =>
            dsimp only
            exact BookInv_addRecord (BookInv_addRecord hinv hr)
              (RecordInv_add_phone hr ha)
        · rw [if_neg hp]
          exact BookInv_addRecord hinv hr

theorem BookInv_change_phone (args : List String) (book : Book)
    (hinv : BookInv book) : BookInv (change_phone args book).1 := by
  rcases args with _ | ⟨name, _ | ⟨oldp, _ | ⟨newp, rest⟩⟩⟩
  · exact hinv
  · exact hinv
  · exact hinv
  · simp only [change_phone]
    cases hf : bookFind book name with
    | none => exact hinv
    | some r =>
      dsimp only
      cases he : r.edit_phone oldp newp with
      | error e => exact hinv
      | ok r2 =>
        dsimp only
        exact BookInv_addRecord hinv
          (RecordInv_edit_phone (hinv r (bookFind_mem hf)) he)

theorem BookInv_add_birthday (args : List String) (book : Book)
    (hinv : BookInv book) : BookInv (add_birthday args book).1 := by
  rcases args with _ | ⟨name, _ | ⟨bstr, rest⟩⟩
  · exact hinv
  · exact hinv
  · simp only [add_birthday]
    cases hf : bookFind book name with
    | some r =>
      dsimp only
      cases ha : r.add_birthday bstr with
      | error e => exact hinv
      | ok r2 =>
        dsimp only
        exact BookInv_addRecord hinv
          (RecordInv_add_birthday (hinv r (bookFind_mem hf)) ha)
    | none =>
      dsimp only
      cases hmk : mkRecord name with
      | error e => exact hinv
      | ok r =>
        dsimp only
        obtain ⟨hr, hre⟩ := RecordInv_mk hmk
        cases ha : r.add_birthday bstr with
        | error e => exact BookInv_addRecord hinv hr
        | ok r2 =>
          dsimp only
          exact BookInv_addRecord (BookInv_addRecord hinv hr)
            (RecordInv_add_birthday hr ha)

theorem BookInv_birthdays (today : PyDate) (args : List String) (book : Book)
    (hinv : BookInv book) : BookInv (birthdays today args book).1 := by
  rcases args with _ | ⟨a, rest⟩
  · simp only [birthdays]
    cases hc : collectUpcoming today book with
    | error e => exact hinv
    | ok pairs =>
      dsimp only
      by_cases hp : pairs.isEmpty = true
      · rw [if_pos hp]
        exact hinv
      · rw [if_neg hp]
        exact hinv
  · exact hinv

theorem BookInv_show_birthday (args : List String) (book : Book)
    (hinv : BookInv book) : BookInv (show_birthday args book).1 := by
  rcases args with _ | ⟨name, rest⟩
  · exact hinv
  · simp only [show_birthday]
    cases hf : bookFind book name with
    | none => exact hinv
    | some r =>
      dsimp only
      cases hb : r.birthday with
      | none => exact hinv
      | some b => exact hinv

/-- C5: every model operation and every command handler preserves the
invariant that all stored phones have passed the 10-digit check and
every stored birthday is a real parsed calendar date (or absent). -/
theorem model_invariant :
    (∀ (r r2 : Record) (p : String),
        RecordInv r → r.add_phone p = .ok r2 → RecordInv r2) ∧
    (∀ (r r2 : Record) (oldp newp : String),
        RecordInv r → r.edit_phone oldp newp = .ok r2 → RecordInv r2) ∧
    (∀ (r r2 : Record) (p : String),
        RecordInv r → r.remove_phone p = .ok r2 → RecordInv r2) ∧
    (∀ (r r2 : Record) (s : String),
        RecordInv r → r.add_birthday s = .ok r2 → RecordInv r2) ∧
    (∀ (book : Book) (r : Record),
        BookInv book → RecordInv r → BookInv (addRecord book r)) ∧
    (∀ (args : List String) (book : Book),
        BookInv book → BookInv (add_contact args book).1) ∧
    (∀ (args : List String) (book : Book),
        BookInv book → BookInv (change_phone args book).1) ∧
    (∀ (args : List String) (book : Book),
        BookInv book → BookInv (add_birthday args book).1) ∧
    (∀ (today : PyDate) (args : List String) (book : Book),
        BookInv book → BookInv (birthdays today args book).1) ∧
    (∀ (args : List String) (book : Book),
        BookInv book → BookInv (show_birthday args book).1) :=
  ⟨fun _ _ _ h1 h2 => RecordInv_add_phone h1 h2,
   fun _ _ _ _ h1 h2 => RecordInv_edit_phone h1 h2,
   fun _ _ _ h1 h2 => RecordInv_remove_phone h1 h2,
   fun _ _ _ h1 h2 => RecordInv_add_birthday h1 h2,
   fun _ _ h1 h2 => BookInv_addRecord h1 h2,
   BookInv_add_contact, BookInv_change_phone, BookInv_add_birthday,
   BookInv_birthdays, BookInv_show_birthday⟩

theorem model_invariant_witness :
    BookInv (add_contact ["Ann", "0123456789"] []).1 :=
  model_invariant.2.2.2.2.2.1 ["Ann", "0123456789"] [] BookInv_nil

/-- C3: `Phone` construction succeeds exactly on strings of ten digit
characters, applies no normalization, and stores the raw string
unchanged; everything else raises the `InvalidPhone` `ValueError`. -/
theorem phone_validation (s : String) :
    (validPhone s = true ↔ s.length = 10 ∧ ∀ c ∈ s.data, isDig c = true) ∧
    (validPhone s = true → mkPhone s = .ok s) ∧
    (validPhone s = false → mkPhone s = .error (.valueError invalidPhoneMsg)) := by
  refine ⟨?_, ?_, ?_⟩
  · unfold validPhone
    rw [Bool.and_eq_true, List.all_eq_true, decide_eq_true_eq, and_comm]
  · intro h
    unfold mkPhone
    rw [if_pos h]
  · exact mkPhone_err

theorem phone_validation_witness :
    mkPhone "0123456789" = .ok "0123456789" ∧
      mkPhone "123" = .error (.valueError invalidPhoneMsg) ∧
      mkPhone "01234567a9" = .error (.valueError invalidPhoneMsg) :=
  ⟨(phone_validation "0123456789").2.1 (by decide),
   (phone_validation "123").2.2 (by decide),
   (phone_validation "01234567a9").2.2 (by decide)⟩

theorem idxOf?_none_iff {p : String} {ps : List String} :
    idxOf? p ps = none ↔ p ∉ ps := by
  induction ps with
  | nil => simp [idxOf?]
  | cons x xs ih =>
    unfold idxOf?
    by_cases he : x = p
    · rw [if_pos he]
      simp [he]
    · rw [if_neg he]
      constructor
      · intro h hm
        rcases List.mem_cons.mp hm with h2 | h2
        · exact he h2.symm
        · cases hj : idxOf? p xs with
          | none => exact (ih.mp hj) h2
          | some j => rw [hj] at h; cases h
      · intro h
        rw [ih.mpr (fun hm => h (List.mem_cons_of_mem _ hm))]
        rfl

theorem idxOf?_some_split {p : String} {ps : List String} {i : Nat} (x : String)
    (h : idxOf? p ps = some i) :
    ∃ l1 l2, ps = l1 ++ p :: l2 ∧ p ∉ l1 ∧ ps.set i x = l1 ++ x :: l2 := by
  induction ps generalizing i with
  | nil => cases h
  | cons q qs ih =>
    unfold idxOf? at h
    split_ifs at h with he
    · injection h with h2
      subst he
      rw [← h2]
      exact ⟨[], qs, rfl, List.not_mem_nil _, rfl⟩
    · cases hj : idxOf? p qs with
      | none => rw [hj] at h; cases h
      | some j =>
        rw [hj] at h
        injection h with h2
        obtain ⟨l1, l2, hsplit, hnot, hset⟩ := ih hj
        refine ⟨q :: l1, l2, by rw [List.cons_append, ← hsplit], ?_, ?_⟩
        · intro hm
          rcases List.mem_cons.mp hm with h3 | h3
          · exact he h3.symm
          · exact hnot h3
        · rw [← h2]
          show q :: qs.set j x = q :: l1 ++ x :: l2
          rw [hset]
          rfl

/-- C7: `edit_phone` with an absent old number fails with PhoneNotFound,
with an invalid new number fails with InvalidPhone (old entry intact);
when both checks pass it replaces exactly the first occurrence of the
old number in place, leaving every other entry and the order unchanged. -/
theorem edit_phone_spec :
    (∀ (r : Record) (oldp newp : String), oldp ∉ r.phones →
        r.edit_phone oldp newp
          = .error (.valueError "Phone number to edit not found.")) ∧
    (∀ (r : Record) (oldp newp : String), oldp ∈ r.phones →
        validPhone newp = false →
        r.edit_phone oldp newp = .error (.valueError invalidPhoneMsg)) ∧
    (∀ (r : Record) (oldp newp : String), oldp ∈ r.phones →
        validPhone newp = true →
        ∃ l1 l2, r.phones = l1 ++ oldp :: l2 ∧ oldp ∉ l1 ∧
          r.edit_phone oldp newp
            = .ok { r with phones := l1 ++ newp :: l2 }) := by
  refine ⟨?_, ?_, ?_⟩
  · intro r oldp newp h
    unfold Record.edit_phone
    rw [idxOf?_none_iff.mpr h]
  · intro r oldp newp hmem hval
    unfold Record.edit_phone
    cases hi : idxOf? oldp r.phones with
    | none => exact absurd (idxOf?_none_iff.mp hi) (fun hc => hc hmem)
    | some i =>
      dsimp only
      rw [mkPhone_err hval]
      rfl
  · intro r oldp newp hmem hval
    cases hi : idxOf? oldp r.phones with
    | none => exact absurd (idxOf?_none_iff.mp hi) (fun hc => hc hmem)
    | some i =>
      obtain ⟨l1, l2, hsplit, hnot, hset⟩ := idxOf?_some_split newp hi
      refine ⟨l1, l2, hsplit, hnot, ?_⟩
      unfold Record.edit_phone
      rw [hi]
      dsimp only
      unfold mkPhone
      rw [if_pos hval]
      dsimp only [Except.map]
      rw [hset]

theorem edit_phone_spec_witness :
    Record.edit_phone ⟨"Ann", ["0000000000", "1111111111"], none⟩
        "2222222222" "9999999999"
        = .error (.valueError "Phone number to edit not found.") ∧
      Record.edit_phone ⟨"Ann", ["0000000000", "1111111111"], none⟩
        "1111111111" "99"
        = .error (.valueError invalidPhoneMsg) ∧
      (∃ l1 l2,
        ["0000000000", "1111111111"] = l1 ++ "1111111111" :: l2 ∧
          "1111111111" ∉ l1 ∧
          Record.edit_phone ⟨"Ann", ["0000000000", "1111111111"], none⟩
              "1111111111" "9999999999"
            = .ok ⟨"Ann", l1 ++ "9999999999" :: l2, none⟩) :=
  ⟨edit_phone_spec.1 ⟨"Ann", ["0000000000", "1111111111"], none⟩
      "2222222222" "9999999999" (by decide),
   edit_phone_spec.2.1 ⟨"Ann", ["0000000000", "1111111111"], none⟩
      "1111111111" "99" (by decide) (by decide),
   edit_phone_spec.2.2 ⟨"Ann", ["0000000000", "1111111111"], none⟩
      "1111111111" "9999999999" (by decide) (by decide)⟩

theorem mkRecord_ok {name : String} (h : name ≠ "") :
    mkRecord name = .ok ⟨name, [], none⟩ := by
  unfold mkRecord
  rw [if_neg h]

/-- C8: the `add` and `add-birthday` handlers insert a fresh empty
Record into the book before validating the field value, so when the
value is invalid the error is raised after the insert and the bare
record stays in the book. -/
theorem partial_insert_on_failure :
    (∀ (name phone : String) (rest : List String) (book : Book),
        bookFind book name = none → name ≠ "" → phone ≠ "" →
        validPhone phone = false →
        add_contact (name :: phone :: rest) book
            = (addRecord book ⟨name, [], none⟩,
               .error (.valueError invalidPhoneMsg)) ∧
          bookFind (add_contact (name :: phone :: rest) book).1 name
            = some ⟨name, [], none⟩) ∧
    (∀ (name bstr : String) (rest : List String) (book : Book) (e : PyErr),
        bookFind book name = none → name ≠ "" →
        parseBirthday bstr = .error e →
        add_birthday (name :: bstr :: rest) book
            = (addRecord book ⟨name, [], none⟩, .error e) ∧
          bookFind (add_birthday (name :: bstr :: rest) book).1 name
            = some ⟨name, [], none⟩) := by
  constructor
  · intro name phone rest book hf hname hphone hval
    have hmain : add_contact (name :: phone :: rest) book
        = (addRecord book ⟨name, [], none⟩,
           .error (.valueError invalidPhoneMsg)) := by
      simp only [add_contact, hf, mkRecord_ok hname]
      rw [if_pos (bne_iff_ne.mpr hphone)]
      simp only [Record.add_phone, mkPhone_err hval, Except.map]
    refine ⟨hmain, ?_⟩
    rw [hmain]
    exact bookFind_addRecord_self book ⟨name, [], none⟩
  · intro name bstr rest book e hf hname hparse
    have hmain : add_birthday (name :: bstr :: rest) book
        = (addRecord book ⟨name, [], none⟩, .error e) := by
      simp only [add_birthday, hf, mkRecord_ok hname]
      simp only [Record.add_birthday, hparse, Except.map]
    refine ⟨hmain, ?_⟩
    rw [hmain]
    exact bookFind_addRecord_self book ⟨name, [], none⟩

theorem partial_insert_on_failure_witness :
    add_contact ["Bob", "12"] []
        = ([⟨"Bob", [], none⟩], .error (.valueError invalidPhoneMsg)) ∧
      add_birthday ["Cal", "31.02.2024"] []
        = ([⟨"Cal", [], none⟩],
           .error (.valueError invalidDateMsg)) :=
  ⟨(partial_insert_on_failure.1 "Bob" "12" [] [] rfl (by decide) (by decide)
      (by decide)).1,
   (partial_insert_on_failure.2 "Cal" "31.02.2024" [] []
      (.valueError invalidDateMsg) rfl (by decide) rfl).1⟩

/-- C9 counterexample: the `change` command on an absent contact does not
print the bare text of the lookup-failure message. -/
theorem change_absent_not_bare_message :
    (inputError (change_phone ["Alice", "0123456789", "9876543210"] [])).2
      ≠ "Contact not found." := by decide

/-- C9 (amended): `ValueError` failures are rendered as exactly their
message, but lookup failures raised as `KeyError` are rendered through
`str(KeyError)`, which wraps the message in quotes; `change` on an
absent contact therefore prints the quoted form of "Contact not found.". -/
theorem error_adapter_rendering :
    (∀ (book : Book) (m : String),
        inputError (book, .error (.valueError m)) = (book, m)) ∧
    (∀ (book : Book) (m : String),
        inputError (book, .error (.keyError m)) = (book, pyRepr m)) ∧
    (∀ (book : Book) (s : String), inputError (book, .ok s) = (book, s)) ∧
    (∀ (name oldp newp : String) (rest : List String) (book : Book),
        bookFind book name = none →
        inputError (change_phone (name :: oldp :: newp :: rest) book)
          = (book, pyRepr "Contact not found.")) := by
  refine ⟨fun _ _ => rfl, fun _ _ => rfl, fun _ _ => rfl, ?_⟩
  intro name oldp newp rest book hf
  simp only [change_phone, hf, inputError, strOfPyErr]

theorem error_adapter_rendering_witness :
    inputError (change_phone ["Alice", "0123456789", "9876543210"] [])
      = ([], pyRepr "Contact not found.") :=
  error_adapter_rendering.2.2.2 "Alice" "0123456789" "9876543210" [] [] rfl

theorem isDig_bounds {c : Char} (h : isDig c = true) :
    48 ≤ c.toNat ∧ c.toNat ≤ 57 := by
  unfold isDig at h
  rw [Bool.and_eq_true, decide_eq_true_eq, decide_eq_true_eq] at h
  exact h

theorem isDig_ne_dot {c : Char} (h : isDig c = true) : c ≠ '.' := by
  intro he
  subst he
  exact absurd h (by decide)

theorem digitChar_val {c : Char} (h : isDig c = true) :
    digitChar (digitVal c) = c := by
  obtain ⟨h1, h2⟩ := isDig_bounds h
  unfold digitChar digitVal
  rw [show 48 + (c.toNat - 48) = c.toNat by omega]
  exact Char.ofNat_toNat c

theorem readNat_two (a b : Char) :
    readNat [a, b] = digitVal a * 10 + digitVal b := by
  show (0 * 10 + digitVal a) * 10 + digitVal b = _
  omega

theorem readNat_four (a b c d : Char) :
    readNat [a, b, c, d]
      = ((digitVal a * 10 + digitVal b) * 10 + digitVal c) * 10 + digitVal d := by
  show (((0 * 10 + digitVal a) * 10 + digitVal b) * 10 + digitVal c) * 10
      + digitVal d = _
  omega

theorem digitVal_le {c : Char} (h : isDig c = true) : digitVal c ≤ 9 := by
  obtain ⟨h1, h2⟩ := isDig_bounds h
  unfold digitVal
  omega

theorem pad2_digits {a b : Char} (ha : isDig a = true) (hb : isDig b = true) :
    pad2 (readNat [a, b]) = [a, b] := by
  have hva := digitVal_le ha
  have hvb := digitVal_le hb
  unfold pad2
  rw [readNat_two]
  rw [show (digitVal a * 10 + digitVal b) / 10 % 10 = digitVal a by omega]
  rw [show (digitVal a * 10 + digitVal b) % 10 = digitVal b by omega]
  rw [digitChar_val ha, digitChar_val hb]

theorem pad4_digits {a b c d : Char} (ha : isDig a = true) (hb : isDig b = true)
    (hc : isDig c = true) (hd : isDig d = true) :
    pad4 (readNat [a, b, c, d]) = [a, b, c, d] := by
  have hva := digitVal_le ha
  have hvb := digitVal_le hb
  have hvc := digitVal_le hc
  have hvd := digitVal_le hd
  unfold pad4
  rw [readNat_four]
  rw [show (((digitVal a * 10 + digitVal b) * 10 + digitVal c) * 10 + digitVal d)
      / 1000 % 10 = digitVal a by omega]
  rw [show (((digitVal a * 10 + digitVal b) * 10 + digitVal c) * 10 + digitVal d)
      / 100 % 10 = digitVal b by omega]
  rw [show (((digitVal a * 10 + digitVal b) * 10 + digitVal c) * 10 + digitVal d)
      / 10 % 10 = digitVal c by omega]
  rw [show (((digitVal a * 10 + digitVal b) * 10 + digitVal c) * 10 + digitVal d)
      % 10 = digitVal d by omega]
  rw [digitChar_val ha, digitChar_val hb, digitChar_val hc, digitChar_val hd]

theorem takeToDot_two (a b : Char) (rest : List Char)
    (ha : a ≠ '.') (hb : b ≠ '.') :
    takeToDot (a :: b :: '.' :: rest) = some ([a, b], rest) := by
  simp [takeToDot, ha, hb]

/-- C4: every strict `DD.MM.YYYY` string denoting a real calendar date
parses successfully and re-renders to the identical string; every string
whose shape strptime cannot accept — wrong separators, non-numeric
components, or an impossible calendar date — fails with the InvalidDate
`ValueError`. -/
theorem birthday_roundtrip :
    (∀ s : String, strictFormat s = true →
        ∃ dt, parseBirthday s = .ok dt ∧ renderDate dt = s) ∧
    (∀ s : String, goodShape s = false →
        parseBirthday s = .error (.valueError invalidDateMsg)) := by
  constructor
  · intro s h
    obtain ⟨data⟩ := s
    unfold strictFormat at h
    split at h
    case h_2 => exact absurd h Bool.false_ne_true
    case h_1 d1 d2 c1 m1 m2 c2 y1 y2 y3 y4 heq =>
      simp only [Bool.and_eq_true, decide_eq_true_eq] at h
      obtain ⟨⟨⟨⟨⟨⟨⟨⟨⟨⟨hd1, hd2⟩, hc1⟩, hm1⟩, hm2⟩, hc2⟩, hy1⟩, hy2⟩, hy3⟩,
        hy4⟩, hval⟩ := h
      subst hc1
      subst hc2
      have heq2 : data = [d1, d2, '.', m1, m2, '.', y1, y2, y3, y4] := heq
      subst heq2
      have hv6 := (validDate_mk_iff _ _ _).mp hval
      have h31 := daysInMonth_le_31 (readNat [y1, y2, y3, y4]) (readNat [m1, m2])
      have hday : dayPart [d1, d2] = true := by
        unfold dayPart
        simp only [Bool.and_eq_true, decide_eq_true_eq]
        refine ⟨⟨⟨?_, ?_⟩, ?_⟩, ?_⟩
        · simp [hd1, hd2]
        · rfl
        · omega
        · omega
      have hmonth : monthPart [m1, m2] = true := by
        unfold monthPart
        simp only [Bool.and_eq_true, decide_eq_true_eq]
        refine ⟨⟨⟨?_, ?_⟩, ?_⟩, ?_⟩
        · simp [hm1, hm2]
        · rfl
        · omega
        · omega
      have hyear : yearPart [y1, y2, y3, y4] = true := by
        unfold yearPart
        simp only [Bool.and_eq_true, decide_eq_true_eq]
        exact ⟨by simp [hy1, hy2, hy3, hy4], rfl⟩
      refine ⟨⟨readNat [y1, y2, y3, y4], readNat [m1, m2], readNat [d1, d2]⟩,
        ?_, ?_⟩
      · show parseBirthday ⟨[d1, d2, '.', m1, m2, '.', y1, y2, y3, y4]⟩ = _
        unfold parseBirthday
        show (match takeToDot [d1, d2, '.', m1, m2, '.', y1, y2, y3, y4] with
          | none => Except.error (PyErr.valueError invalidDateMsg)
          | some (p1, r1) =>
            match takeToDot r1 with
            | none => Except.error (PyErr.valueError invalidDateMsg)
            | some (p2, p3) =>
              if dayPart p1 && monthPart p2 && yearPart p3 then
                match mkDateE (readNat p3) (readNat p2) (readNat p1) with
                | .ok d => .ok d
                | .error _ => .error (.valueError invalidDateMsg)
              else .error (.valueError invalidDateMsg)) = _
        rw [takeToDot_two d1 d2 _ (isDig_ne_dot hd1) (isDig_ne_dot hd2)]
        dsimp only
        rw [takeToDot_two m1 m2 _ (isDig_ne_dot hm1) (isDig_ne_dot hm2)]
        dsimp only
        rw [if_pos (by rw [hday, hmonth, hyear]; rfl)]
        rw [mkDateE_ok_of_valid hval]
      · show String.mk (pad2 (readNat [d1, d2]) ++ '.' :: pad2 (readNat [m1, m2])
            ++ '.' :: pad4 (readNat [y1, y2, y3, y4]))
          = String.mk [d1, d2, '.', m1, m2, '.', y1, y2, y3, y4]
        rw [pad2_digits hd1 hd2, pad2_digits hm1 hm2,
          pad4_digits hy1 hy2 hy3 hy4]
        rfl
  · intro s h
    unfold goodShape at h
    unfold parseBirthday
    cases h1 : takeToDot s.data with
    | none => rfl
    | some p =>
      obtain ⟨p1, r1⟩ := p
      rw [h1] at h
      dsimp only at h
      dsimp only
      cases h2 : takeToDot r1 with
      | none => rfl
      | some q =>
        obtain ⟨p2, p3⟩ := q
        rw [h2] at h
        dsimp only at h
        dsimp only
        by_cases h3 : (dayPart p1 && monthPart p2 && yearPart p3) = true
        · rw [if_pos h3]
          simp only [Bool.and_eq_true] at h3
          obtain ⟨⟨hA, hB⟩, hC⟩ := h3
          simp only [hA, hB, hC, Bool.true_and] at h
          cases h4 : mkDateE (readNat p3) (readNat p2) (readNat p1) with
          | ok x =>
            obtain ⟨hvx, hxe⟩ := mkDateE_ok_elim h4
            rw [hxe] at hvx
            rw [hvx] at h
            exact absurd h (by decide)
          | error e => rfl
        · rw [if_neg h3]

theorem birthday_roundtrip_witness :
    (∃ dt, parseBirthday "15.03.1990" = .ok dt ∧ renderDate dt = "15.03.1990") ∧
      parseBirthday "31.02.2024" = .error (.valueError invalidDateMsg) ∧
      parseBirthday "15/03/1990" = .error (.valueError invalidDateMsg) ∧
      parseBirthday "1a.03.1990" = .error (.valueError invalidDateMsg) :=
  ⟨birthday_roundtrip.1 "15.03.1990" (by decide),
   birthday_roundtrip.2 "31.02.2024" (by decide),
   birthday_roundtrip.2 "15/03/1990" (by decide),
   birthday_roundtrip.2 "1a.03.1990" (by decide)⟩
